import Mathlib

/-!
# Verification of the PCA9685 PWM driver (`pca9685.cpp`)

Shallow embedding of the register-level driver for the PCA9685 16-channel
12-bit PWM controller.  The chip's register file is modelled as a map from
register addresses to byte values; each driver function is a pure function
from a register state to a new register state together with the list of I2C
transactions it issues (reads, writes, and the stabilisation delay).
C `int` values are modelled as `Int`, the C `float` frequency as `ℚ`.
-/

/-- The chip's register file: a byte value per register address
(register addresses are C `int`, modelled as `Int`). -/
abbrev Regs := Int → Nat

/-- One I2C transaction (or delay) issued by the driver, in order. -/
inductive Ev where
  | rdByte (reg : Int) (val : Nat)
  | wrByte (reg : Int) (val : Int)
  | rdWord (reg : Int) (val : Nat)
  | wrWord (reg : Int) (val : Int)
  | usleep (us : Nat)
deriving DecidableEq, Repr

/-- `i2cReadByteData`: the transport returns the byte stored at `reg`. -/
def i2cReadByteData (s : Regs) (reg : Int) : Nat := s reg % 256

/-- `i2cWriteByteData`: stores the low byte of `v` at `reg` (the C `int`
argument is converted to a byte, i.e. reduced mod 256). -/
def i2cWriteByteData (s : Regs) (reg : Int) (v : Int) : Regs :=
  fun r => if r = reg then (v % 256).toNat else s r

/-- `i2cReadWordData`: little-endian 16-bit read at `reg`, `reg + 1`. -/
def i2cReadWordData (s : Regs) (reg : Int) : Nat :=
  i2cReadByteData s reg + 256 * i2cReadByteData s (reg + 1)

/-- `i2cWriteWordData`: little-endian 16-bit write of the low 16 bits of `v`. -/
def i2cWriteWordData (s : Regs) (reg : Int) (v : Int) : Regs :=
  fun r =>
    if r = reg then (v % 65536).toNat % 256
    else if r = reg + 1 then (v % 65536).toNat / 256
    else s r

/-- `#define PCA9685_MODE1 0x0` -/
def PCA9685_MODE1 : Int := 0x0

/-- `#define PCA9685_PRESCALE 0xFE` -/
def PCA9685_PRESCALE : Int := 0xFE

/-- `#define LED0_ON_L 0x6` -/
def LED0_ON_L : Int := 0x6

/-- `#define LEDALL_ON_L 0xFA` -/
def LEDALL_ON_L : Int := 0xFA

/-- `#define PIN_ALL 16` -/
def PIN_ALL : Int := 16

/-- `baseReg`: `return (pin >= PIN_ALL ? LEDALL_ON_L : LED0_ON_L + 4 * pin);` -/
def baseReg (pin : Int) : Int :=
  if pin ≥ PIN_ALL then LEDALL_ON_L else LED0_ON_L + 4 * pin

/-- The frequency cap in `pca9685PWMFreq`:
`freq = (freq > 1000 ? 1000 : (freq < 40 ? 40 : freq));` -/
def clampFreq (freq : ℚ) : ℚ :=
  if freq > 1000 then 1000 else if freq < 40 then 40 else freq

/-- C's `(int)` cast on an exact value: truncation toward zero. -/
def cTruncToInt (q : ℚ) : Int :=
  if q < 0 then -((-q).floor) else q.floor

/-- The prescale computation in `pca9685PWMFreq`:
`int prescale = (int)(25000000.0f / (4096 * freq) - 0.5f);`
applied to the capped frequency (float arithmetic modelled exactly in `ℚ`). -/
def pwmPrescale (freq : ℚ) : Int :=
  cTruncToInt (25000000 / (4096 * clampFreq freq) - 0.5)

/-- `pca9685PWMFreq`: cap the frequency, compute the prescale, then
sleep → write prescale → wake → delay 1000 µs → restart. -/
def pca9685PWMFreq (s : Regs) (freq : ℚ) : Regs × List Ev :=
  let prescale : Int := pwmPrescale freq
  let settings : Nat := i2cReadByteData s PCA9685_MODE1 &&& 0x7F
  let sleep : Nat := settings ||| 0x10
  let wake : Nat := settings &&& 0xEF
  let restart : Nat := wake ||| 0x80
  let s1 := i2cWriteByteData s PCA9685_MODE1 (sleep : Int)
  let s2 := i2cWriteByteData s1 PCA9685_PRESCALE prescale
  let s3 := i2cWriteByteData s2 PCA9685_MODE1 (wake : Int)
  let s4 := i2cWriteByteData s3 PCA9685_MODE1 (restart : Int)
  (s4, [Ev.rdByte PCA9685_MODE1 (i2cReadByteData s PCA9685_MODE1),
        Ev.wrByte PCA9685_MODE1 (sleep : Int),
        Ev.wrByte PCA9685_PRESCALE prescale,
        Ev.wrByte PCA9685_MODE1 (wake : Int),
        Ev.usleep 1000,
        Ev.wrByte PCA9685_MODE1 (restart : Int)])

/-- `pca9685Setup`: read MODE1, write `(read & 0x7F) | 0x20` back, set the
frequency when `freq > 0`, and return 1. -/
def pca9685Setup (s : Regs) (freq : ℚ) : Int × Regs × List Ev :=
  let rd := i2cReadByteData s PCA9685_MODE1
  let settings : Nat := rd &&& 0x7F
  let autoInc : Nat := settings ||| 0x20
  let s1 := i2cWriteByteData s PCA9685_MODE1 (autoInc : Int)
  if freq > 0 then
    (1, (pca9685PWMFreq s1 freq).1,
     Ev.rdByte PCA9685_MODE1 rd :: Ev.wrByte PCA9685_MODE1 (autoInc : Int) ::
       (pca9685PWMFreq s1 freq).2)
  else
    (1, s1, [Ev.rdByte PCA9685_MODE1 rd, Ev.wrByte PCA9685_MODE1 (autoInc : Int)])

/-- `pca9685PWMReset`: broadcast ALL_LED on ← 0, off ← 0x1000. -/
def pca9685PWMReset (s : Regs) : Regs × List Ev :=
  let s1 := i2cWriteWordData s LEDALL_ON_L 0x0
  let s2 := i2cWriteWordData s1 (LEDALL_ON_L + 2) 0x1000
  (s2, [Ev.wrWord LEDALL_ON_L 0x0, Ev.wrWord (LEDALL_ON_L + 2) 0x1000])

/-- `pca9685PWMWrite`: write `on & 0x0FFF` and `off & 0x0FFF` to the
channel's on and off word registers. -/
def pca9685PWMWrite (s : Regs) (pin : Int) (onTicks offTicks : Int) :
    Regs × List Ev :=
  let reg := baseReg pin
  let s1 := i2cWriteWordData s reg (Int.land onTicks 0x0FFF)
  let s2 := i2cWriteWordData s1 (reg + 2) (Int.land offTicks 0x0FFF)
  (s2, [Ev.wrWord reg (Int.land onTicks 0x0FFF),
        Ev.wrWord (reg + 2) (Int.land offTicks 0x0FFF)])

/-- `pca9685PWMRead`: read the on and off word registers of the channel. -/
def pca9685PWMRead (s : Regs) (pin : Int) : Nat × Nat × List Ev :=
  let reg := baseReg pin
  (i2cReadWordData s reg, i2cReadWordData s (reg + 2),
   [Ev.rdWord reg (i2cReadWordData s reg),
    Ev.rdWord (reg + 2) (i2cReadWordData s (reg + 2))])

/-- `pca9685FullOff`: set or clear bit 4 of the channel's off-high byte. -/
def pca9685FullOff (s : Regs) (pin : Int) (tf : Bool) : Regs × List Ev :=
  let reg := baseReg pin + 3
  let state0 := i2cReadByteData s reg
  let state := if tf then state0 ||| 0x10 else state0 &&& 0xEF
  (i2cWriteByteData s reg (state : Int),
   [Ev.rdByte reg state0, Ev.wrByte reg (state : Int)])

/-- `pca9685FullOn`: set or clear bit 4 of the channel's on-high byte;
when enabling, additionally clear full-off for the same channel. -/
def pca9685FullOn (s : Regs) (pin : Int) (tf : Bool) : Regs × List Ev :=
  let reg := baseReg pin + 1
  let state0 := i2cReadByteData s reg
  let state := if tf then state0 ||| 0x10 else state0 &&& 0xEF
  let s1 := i2cWriteByteData s reg (state : Int)
  if tf then
    ((pca9685FullOff s1 pin false).1,
     Ev.rdByte reg state0 :: Ev.wrByte reg (state : Int) ::
       (pca9685FullOff s1 pin false).2)
  else
    (s1, [Ev.rdByte reg state0, Ev.wrByte reg (state : Int)])

/-- Spec-side clamp, following the spec's words: the frequency is
"clamped to [40, 1000] inclusive". -/
def specClamp (f : ℚ) : ℚ := max 40 (min 1000 f)

/-- Spec-side prescale, following the spec's words: the truncation toward
zero of `25_000_000 / (4096 * clamped_freq) - 0.5`. -/
def specPrescale (f : ℚ) : Int :=
  cTruncToInt (25000000 / (4096 * specClamp f) - 0.5)

/-! ## Basic facts about the register model -/

theorem byte_lt (s : Regs) (reg : Int) : i2cReadByteData s reg < 256 :=
  Nat.mod_lt _ (by norm_num)

theorem writeByte_at (s : Regs) (reg : Int) (v : Int) :
    i2cWriteByteData s reg v reg = (v % 256).toNat := by
  simp [i2cWriteByteData]

theorem writeByte_ne (s : Regs) (reg r : Int) (v : Int) (h : r ≠ reg) :
    i2cWriteByteData s reg v r = s r := by
  simp [i2cWriteByteData, h]

theorem writeByte_at_byte (s : Regs) (reg : Int) (v : Nat) (h : v < 256) :
    i2cWriteByteData s reg (v : Int) reg = v := by
  rw [writeByte_at]
  omega

theorem writeWord_ne (s : Regs) (reg r : Int) (v : Int)
    (h0 : r ≠ reg) (h1 : r ≠ reg + 1) :
    i2cWriteWordData s reg v r = s r := by
  simp [i2cWriteWordData, h0, h1]

theorem word_split_recombine (v : Int) (h0 : 0 ≤ v) (h1 : v < 65536) :
    (((v % 65536).toNat % 256 % 256 +
        256 * ((v % 65536).toNat / 256 % 256) : Nat) : Int) = v := by
  omega

theorem writeWord_readWord (s : Regs) (reg : Int) (v : Int)
    (h0 : 0 ≤ v) (h1 : v < 65536) :
    ((i2cReadWordData (i2cWriteWordData s reg v) reg : Int)) = v := by
  have hne : reg + 1 ≠ reg := by omega
  simp only [i2cReadWordData, i2cReadByteData, i2cWriteWordData,
    eq_self_iff_true, if_true, if_neg hne]
  exact word_split_recombine v h0 h1

theorem readWord_congr (s t : Regs) (reg : Int)
    (h0 : s reg = t reg) (h1 : s (reg + 1) = t (reg + 1)) :
    i2cReadWordData s reg = i2cReadWordData t reg := by
  simp [i2cReadWordData, i2cReadByteData, h0, h1]

/-! ## Facts about bit operations on byte values -/

theorem lor16_lt (x : Nat) (h : x < 256) : x ||| 0x10 < 256 := by
  have : x ||| 0x10 < 2 ^ 8 := Nat.or_lt_two_pow (by omega) (by omega)
  omega

theorem testBit_high (x i : Nat) (hx : x < 256) (hi : 8 ≤ i) :
    x.testBit i = false := by
  apply Nat.testBit_lt_two_pow
  have h : (256 : Nat) ≤ 2 ^ i := by
    calc (256 : Nat) = 2 ^ 8 := by norm_num
      _ ≤ 2 ^ i := Nat.pow_le_pow_right (by norm_num) hi
  omega

theorem testBit_or_pow_self (x k : Nat) : (x ||| 2 ^ k).testBit k = true := by
  rw [Nat.testBit_or, Nat.testBit_two_pow_self]
  simp

theorem testBit_or_pow_other (x k i : Nat) (h : i ≠ k) :
    (x ||| 2 ^ k).testBit i = x.testBit i := by
  rw [Nat.testBit_or, Nat.testBit_two_pow_of_ne (Ne.symm h)]
  simp

theorem testBit_and239_self (x : Nat) : (x &&& 0xEF).testBit 4 = false := by
  rw [Nat.testBit_and]
  simp [show Nat.testBit 239 4 = false from by decide]

theorem testBit_and239_other (x i : Nat) (hx : x < 256) (hi : i ≠ 4) :
    (x &&& 0xEF).testBit i = x.testBit i := by
  rcases Nat.lt_or_ge i 8 with h | h
  · rw [Nat.testBit_and]
    interval_cases i <;> simp_all <;> (intro _; decide)
  · have h1 : x &&& 0xEF ≤ 0xEF := Nat.and_le_right
    rw [testBit_high _ _ (by omega) h, testBit_high _ _ hx h]

theorem testBit_and127_self (x : Nat) : (x &&& 0x7F).testBit 7 = false := by
  rw [Nat.testBit_and]
  simp [show Nat.testBit 127 7 = false from by decide]

theorem testBit_and127_other (x i : Nat) (hx : x < 256) (hi : i ≠ 7) :
    (x &&& 0x7F).testBit i = x.testBit i := by
  rcases Nat.lt_or_ge i 8 with h | h
  · rw [Nat.testBit_and]
    interval_cases i <;> simp_all <;> (intro _; decide)
  · have h1 : x &&& 0x7F ≤ 0x7F := Nat.and_le_right
    rw [testBit_high _ _ (by omega) h, testBit_high _ _ hx h]

/-! ## Facts about C bitwise AND on `Int` -/

theorem int_land_4095_nonneg (x : Int) : 0 ≤ Int.land x 4095 := by
  cases x with
  | ofNat m => exact Int.ofNat_nonneg _
  | negSucc m => exact Int.ofNat_nonneg _

theorem int_land_4095_le (x : Int) : Int.land x 4095 ≤ 4095 := by
  cases x with
  | ofNat m =>
    show (Int.ofNat (m &&& 4095)) ≤ 4095
    have h : m &&& 4095 ≤ 4095 := Nat.and_le_right
    exact Int.ofNat_le.mpr h
  | negSucc m =>
    show (Int.ofNat (Nat.ldiff 4095 m)) ≤ 4095
    have : Nat.ldiff 4095 m ≤ 4095 := by
      apply Nat.le_of_testBit
      intro i hi
      rw [Nat.testBit_ldiff] at hi
      exact Bool.and_elim_left hi
    exact Int.ofNat_le.mpr this

/-! ## Frequency clamp and prescale -/

theorem clampFreq_eq_specClamp (f : ℚ) : clampFreq f = specClamp f := by
  unfold clampFreq specClamp
  split_ifs with h1 h2
  · rw [min_eq_left (le_of_lt h1), max_eq_right (by norm_num)]
  · rw [min_eq_right (by linarith), max_eq_left (by linarith)]
  · rw [min_eq_right (by linarith), max_eq_right (by linarith)]

theorem specClamp_mem (f : ℚ) : 40 ≤ specClamp f ∧ specClamp f ≤ 1000 :=
  ⟨le_max_left 40 (min 1000 f), max_le (by norm_num) (min_le_left 1000 f)⟩

theorem prescale_operand_nonneg (f : ℚ) :
    0 ≤ 25000000 / (4096 * specClamp f) - 0.5 := by
  obtain ⟨h40, h1000⟩ := specClamp_mem f
  have hpos : (0 : ℚ) < 4096 * specClamp f := by linarith
  have hle : (4096 : ℚ) * specClamp f ≤ 4096000 := by linarith
  have h2 : (25000000 : ℚ) / 4096000 ≤ 25000000 / (4096 * specClamp f) := by
    rw [div_le_div_iff₀ (by norm_num) hpos]
    nlinarith
  have h3 : (6 : ℚ) ≤ 25000000 / 4096000 := by norm_num
  norm_num
  linarith

theorem cTruncToInt_eq_floor (q : ℚ) (h : 0 ≤ q) : cTruncToInt q = ⌊q⌋ := by
  unfold cTruncToInt
  rw [if_neg (by linarith)]
  rfl

/-- C6: the frequency value used by `pca9685PWMFreq` is clamped to
`[40, 1000]`: every `f ≤ 40` becomes exactly 40, every `f ≥ 1000` exactly
1000, and every `f` strictly between the bounds is used unchanged. -/
theorem clampFreq_caps (f : ℚ) :
    (f ≤ 40 → clampFreq f = 40) ∧ (1000 ≤ f → clampFreq f = 1000) ∧
    (40 < f → f < 1000 → clampFreq f = f) := by
  unfold clampFreq
  refine ⟨fun h => ?_, fun h => ?_, fun h h2 => ?_⟩
  · by_cases hlt : f < 40
    · rw [if_neg (by linarith), if_pos hlt]
    · rw [if_neg (by linarith), if_neg hlt]
      linarith
  · by_cases h1 : f > 1000
    · rw [if_pos h1]
    · rw [if_neg h1, if_neg (by linarith)]
      linarith
  · rw [if_neg (by linarith), if_neg (by linarith)]

/-- Witness for `clampFreq_caps` at the concrete inputs 30, 2000 and 100. -/
theorem clampFreq_caps_witness :
    clampFreq 30 = 40 ∧ clampFreq 2000 = 1000 ∧ clampFreq 100 = 100 :=
  ⟨(clampFreq_caps 30).1 (by norm_num),
   (clampFreq_caps 2000).2.1 (by norm_num),
   (clampFreq_caps 100).2.2 (by norm_num) (by norm_num)⟩

/-- C1 (amended): the prescale value is the truncation toward zero of
`25000000 / (4096 * clamp f) - 0.5` with `clamp` capping to `[40, 1000]`
(`specPrescale`, written from the spec's words, with the floor
characterised by its defining bounds), and the worked example at clamped
frequency 50 yields prescale 121 — not 120 as the spec's example claims,
since `25000000 / (4096 * 50) = 122.07...`, not 121.07. -/
theorem pwmFreq_prescale_formula (f : ℚ) :
    pwmPrescale f = specPrescale f ∧
    ((pwmPrescale f : ℚ) ≤ 25000000 / (4096 * specClamp f) - 0.5 ∧
      25000000 / (4096 * specClamp f) - 0.5 < (pwmPrescale f : ℚ) + 1) ∧
    pwmPrescale 50 = 121 := by
  have heq : pwmPrescale f = specPrescale f := by
    unfold pwmPrescale specPrescale
    rw [clampFreq_eq_specClamp]
  have hnn := prescale_operand_nonneg f
  have hfl : pwmPrescale f = ⌊(25000000 : ℚ) / (4096 * specClamp f) - 0.5⌋ := by
    rw [heq]
    unfold specPrescale
    exact cTruncToInt_eq_floor _ hnn
  refine ⟨heq, ⟨?_, ?_⟩, ?_⟩
  · rw [hfl]
    exact Int.floor_le _
  · rw [hfl]
    exact Int.lt_floor_add_one _
  · have hc : clampFreq 50 = 50 := by
      unfold clampFreq
      norm_num
    unfold pwmPrescale
    rw [hc]
    unfold cTruncToInt
    rw [if_neg (by norm_num)]
    rw [show ((25000000 : ℚ) / (4096 * 50) - 0.5) = 15561 / 128 by norm_num]
    rw [show (15561 / 128 : ℚ).floor = ⌊(15561 / 128 : ℚ)⌋ from rfl]
    rw [Int.floor_eq_iff]
    norm_num

/-- C1 counterexample: at input frequency 50 (already within the clamp
range) the code computes prescale 121, so the spec's worked example value
120 is wrong. -/
theorem pwmFreq_prescale_50_counterexample : pwmPrescale 50 ≠ 120 := by
  have hc : clampFreq 50 = 50 := by
    unfold clampFreq
    norm_num
  unfold pwmPrescale
  rw [hc]
  unfold cTruncToInt
  rw [if_neg (by norm_num)]
  rw [show ((25000000 : ℚ) / (4096 * 50) - 0.5) = 15561 / 128 by norm_num]
  rw [show (15561 / 128 : ℚ).floor = ⌊(15561 / 128 : ℚ)⌋ from rfl]
  intro hcontra
  rw [Int.floor_eq_iff] at hcontra
  norm_num at hcontra

/-! ## Channel addressing -/

/-- C5: the channel-address helper maps every channel `0 ≤ pin ≤ 15` to
base address `0x06 + 4 * pin` (the off-low word register being written at
base + 2, as the write-trace conjunct shows), while channel 16 maps to the
fixed broadcast base `0xFA`, which is not `0x06 + 4 * 16`. -/
theorem baseReg_addressing (pin : Int) (h0 : 0 ≤ pin) (h1 : pin ≤ 15) :
    baseReg pin = 0x06 + 4 * pin ∧
    baseReg 16 = 0xFA ∧
    (0xFA : Int) ≠ 0x06 + 4 * 16 ∧
    ∀ s onTicks offTicks,
      (pca9685PWMWrite s pin onTicks offTicks).2 =
        [Ev.wrWord (0x06 + 4 * pin) (Int.land onTicks 0x0FFF),
         Ev.wrWord (0x06 + 4 * pin + 2) (Int.land offTicks 0x0FFF)] := by
  have hb : baseReg pin = 0x06 + 4 * pin := by
    unfold baseReg PIN_ALL LED0_ON_L
    rw [if_neg (by omega)]
  refine ⟨hb, by decide, by decide, ?_⟩
  intro s onTicks offTicks
  simp [pca9685PWMWrite, hb]

/-- Witness for `baseReg_addressing` at channel 7. -/
theorem baseReg_addressing_witness :
    baseReg 7 = 0x06 + 4 * 7 ∧
    baseReg 16 = 0xFA ∧
    (0xFA : Int) ≠ 0x06 + 4 * 16 ∧
    ∀ s onTicks offTicks,
      (pca9685PWMWrite s 7 onTicks offTicks).2 =
        [Ev.wrWord (0x06 + 4 * 7) (Int.land onTicks 0x0FFF),
         Ev.wrWord (0x06 + 4 * 7 + 2) (Int.land offTicks 0x0FFF)] :=
  baseReg_addressing 7 (by norm_num) (by norm_num)

/-! ## Reset and setup -/

/-- C7: `pca9685PWMReset` issues exactly two word writes — 0 to the
broadcast on-register `0xFA` and `0x1000` (bit 12, the full-off flag, set)
to the broadcast off-register `0xFA + 2` — and nothing else. -/
theorem pwmReset_broadcast_writes (s : Regs) :
    (pca9685PWMReset s).2 = [Ev.wrWord 0xFA 0x0, Ev.wrWord (0xFA + 2) 0x1000] ∧
    LEDALL_ON_L = 0xFA ∧ (0x1000 : Nat).testBit 12 = true :=
  ⟨rfl, rfl, by decide⟩

/-- C10: `pca9685Setup` returns the constant 1 for every register state
(hence every value read from the mode register) and every frequency,
including frequencies ≤ 0. -/
theorem setup_always_returns_one (s : Regs) (freq : ℚ) :
    (pca9685Setup s freq).1 = 1 := by
  unfold pca9685Setup
  split_ifs <;> rfl

/-! ## Setup mode-register handling -/

/-- C2 (amended): `pca9685Setup` reads the mode register, writes back the
value read with the auto-increment bit (bit 5) set, the restart bit
(bit 7) cleared and all other bits preserved, and then calls the
frequency-setting operation if and only if the frequency is > 0 (otherwise
it performs no further transactions). -/
theorem setup_mode_register_spec (s : Regs) (freq : ℚ) :
    (pca9685Setup s freq).2.2 =
      Ev.rdByte PCA9685_MODE1 (i2cReadByteData s PCA9685_MODE1) ::
      Ev.wrByte PCA9685_MODE1
        (((i2cReadByteData s PCA9685_MODE1 &&& 0x7F) ||| 0x20 : Nat) : Int) ::
      (if freq > 0 then
        (pca9685PWMFreq (i2cWriteByteData s PCA9685_MODE1
          (((i2cReadByteData s PCA9685_MODE1 &&& 0x7F) ||| 0x20 : Nat) : Int))
          freq).2
       else []) ∧
    ((i2cReadByteData s PCA9685_MODE1 &&& 0x7F) ||| 0x20).testBit 5 = true ∧
    ((i2cReadByteData s PCA9685_MODE1 &&& 0x7F) ||| 0x20).testBit 7 = false ∧
    ∀ i, i ≠ 5 → i ≠ 7 →
      ((i2cReadByteData s PCA9685_MODE1 &&& 0x7F) ||| 0x20).testBit i =
        (i2cReadByteData s PCA9685_MODE1).testBit i := by
  refine ⟨?_, ?_, ?_, ?_⟩
  · unfold pca9685Setup
    split_ifs <;> rfl
  · rw [show (0x20 : Nat) = 2 ^ 5 by norm_num]
    exact testBit_or_pow_self _ 5
  · rw [show (0x20 : Nat) = 2 ^ 5 by norm_num,
      testBit_or_pow_other _ 5 7 (by norm_num)]
    exact testBit_and127_self _
  · intro i h5 h7
    rw [show (0x20 : Nat) = 2 ^ 5 by norm_num,
      testBit_or_pow_other _ 5 i h5,
      testBit_and127_other _ i (byte_lt s PCA9685_MODE1) h7]

/-- Witness for `setup_mode_register_spec` at the all-0x80 register state
and frequency 0 (bit index 0 for the bit-preservation conjunct). -/
theorem setup_mode_register_spec_witness :
    ((pca9685Setup (fun _ => 0x80) 0).2.2 =
      Ev.rdByte PCA9685_MODE1 (i2cReadByteData (fun _ => 0x80) PCA9685_MODE1) ::
      Ev.wrByte PCA9685_MODE1
        (((i2cReadByteData (fun _ => 0x80) PCA9685_MODE1 &&& 0x7F) ||| 0x20 :
          Nat) : Int) ::
      (if (0 : ℚ) > 0 then
        (pca9685PWMFreq (i2cWriteByteData (fun _ => 0x80) PCA9685_MODE1
          (((i2cReadByteData (fun _ => 0x80) PCA9685_MODE1 &&& 0x7F) ||| 0x20 :
            Nat) : Int)) 0).2
       else [])) ∧
    ((i2cReadByteData (fun _ => 0x80) PCA9685_MODE1 &&& 0x7F) ||| 0x20).testBit 0
      = (i2cReadByteData (fun _ => 0x80) PCA9685_MODE1).testBit 0 :=
  ⟨(setup_mode_register_spec (fun _ => 0x80) 0).1,
   (setup_mode_register_spec (fun _ => 0x80) 0).2.2.2 0 (by norm_num)
     (by norm_num)⟩

/-- C2 counterexample: with the restart bit set in the mode register (read
value 0x80), the value written back is 0x20 — not "the value read with
bit 5 set", which would be 0x80 ||| 0x20 = 0xA0 — because the code also
clears bit 7 of the value read. -/
theorem setup_restart_bit_counterexample :
    (pca9685Setup (fun _ => 0x80) 0).2.2 =
      [Ev.rdByte 0 0x80, Ev.wrByte 0 0x20] ∧
    (0x80 ||| 0x20 : Nat) ≠ 0x20 := by
  constructor
  · rfl
  · decide

/-! ## Full-on / full-off flags -/

theorem fullOff_state (s : Regs) (pin : Int) (tf : Bool) :
    (pca9685FullOff s pin tf).1 =
      i2cWriteByteData s (baseReg pin + 3)
        (((if tf then i2cReadByteData s (baseReg pin + 3) ||| 0x10
           else i2cReadByteData s (baseReg pin + 3) &&& 0xEF) : Nat) : Int) := by
  cases tf <;> rfl

theorem fullOff_at3 (s : Regs) (pin : Int) (tf : Bool) :
    (pca9685FullOff s pin tf).1 (baseReg pin + 3) =
      (if tf then i2cReadByteData s (baseReg pin + 3) ||| 0x10
       else i2cReadByteData s (baseReg pin + 3) &&& 0xEF) := by
  rw [fullOff_state]
  apply writeByte_at_byte
  cases tf
  · simpa using lt_of_le_of_lt Nat.and_le_left (byte_lt s (baseReg pin + 3))
  · simpa using lor16_lt _ (byte_lt s (baseReg pin + 3))

theorem fullOff_frame (s : Regs) (pin : Int) (tf : Bool) (r : Int)
    (h : r ≠ baseReg pin + 3) : (pca9685FullOff s pin tf).1 r = s r := by
  rw [fullOff_state]
  exact writeByte_ne _ _ _ _ h

theorem fullOn_true_state (s : Regs) (pin : Int) :
    (pca9685FullOn s pin true).1 =
      (pca9685FullOff
        (i2cWriteByteData s (baseReg pin + 1)
          ((i2cReadByteData s (baseReg pin + 1) ||| 0x10 : Nat) : Int))
        pin false).1 := rfl

theorem fullOn_false_state (s : Regs) (pin : Int) :
    (pca9685FullOn s pin false).1 =
      i2cWriteByteData s (baseReg pin + 1)
        ((i2cReadByteData s (baseReg pin + 1) &&& 0xEF : Nat) : Int) := rfl

/-- C9: `pca9685FullOff` sets or clears only the full-off flag: bit 4 of
the channel's off-high byte becomes `tf`, every other bit of that byte is
preserved, and every other register — in particular the on-high register
holding the full-on flag — is untouched. -/
theorem fullOff_only_touches_off_flag (s : Regs) (pin : Int) (tf : Bool) :
    ((pca9685FullOff s pin tf).1 (baseReg pin + 3)).testBit 4 = tf ∧
    (pca9685FullOff s pin tf).1 (baseReg pin + 1) = s (baseReg pin + 1) ∧
    (∀ r, r ≠ baseReg pin + 3 → (pca9685FullOff s pin tf).1 r = s r) ∧
    (∀ i, i ≠ 4 →
      ((pca9685FullOff s pin tf).1 (baseReg pin + 3)).testBit i =
        (i2cReadByteData s (baseReg pin + 3)).testBit i) := by
  refine ⟨?_, ?_, fun r hr => fullOff_frame s pin tf r hr, ?_⟩
  · rw [fullOff_at3]
    cases tf
    · rw [if_neg Bool.false_ne_true]
      exact testBit_and239_self (i2cReadByteData s (baseReg pin + 3))
    · rw [if_pos rfl, show (0x10 : Nat) = 2 ^ 4 by norm_num]
      exact testBit_or_pow_self (i2cReadByteData s (baseReg pin + 3)) 4
  · exact fullOff_frame s pin tf _ (by omega)
  · intro i hi
    rw [fullOff_at3]
    cases tf
    · rw [if_neg Bool.false_ne_true]
      exact testBit_and239_other (i2cReadByteData s (baseReg pin + 3)) i
        (byte_lt s (baseReg pin + 3)) hi
    · rw [if_pos rfl, show (0x10 : Nat) = 2 ^ 4 by norm_num]
      exact testBit_or_pow_other (i2cReadByteData s (baseReg pin + 3)) 4 i hi

/-- Witness for `fullOff_only_touches_off_flag` at the all-zero state,
channel 0, `tf = true`, other register 0, bit index 0. -/
theorem fullOff_only_touches_off_flag_witness :
    (((pca9685FullOff (fun _ => 0) 0 true).1 (baseReg 0 + 3)).testBit 4
      = true) ∧
    ((pca9685FullOff (fun _ => 0) 0 true).1 0 = 0) ∧
    (((pca9685FullOff (fun _ => 0) 0 true).1 (baseReg 0 + 3)).testBit 0 =
      (i2cReadByteData (fun _ => 0) (baseReg 0 + 3)).testBit 0) :=
  ⟨(fullOff_only_touches_off_flag (fun _ => 0) 0 true).1,
   (fullOff_only_touches_off_flag (fun _ => 0) 0 true).2.2.1 0 (by decide),
   (fullOff_only_touches_off_flag (fun _ => 0) 0 true).2.2.2 0 (by decide)⟩

/-- C4: after `pca9685FullOn ch true` the channel's full-on bit (bit 4 of
on-high) is set and its full-off bit (bit 4 of off-high) is cleared, for
every prior state of the full-off flag; after `pca9685FullOn ch false` the
full-on bit is cleared and the off-high register is untouched. -/
theorem fullOn_sets_and_clears (s : Regs) (pin : Int) :
    ((pca9685FullOn s pin true).1 (baseReg pin + 1)).testBit 4 = true ∧
    ((pca9685FullOn s pin true).1 (baseReg pin + 3)).testBit 4 = false ∧
    ((pca9685FullOn s pin false).1 (baseReg pin + 1)).testBit 4 = false ∧
    (pca9685FullOn s pin false).1 (baseReg pin + 3) = s (baseReg pin + 3) := by
  refine ⟨?_, ?_, ?_, ?_⟩
  · rw [fullOn_true_state, fullOff_frame _ _ _ _ (by omega),
      writeByte_at_byte _ _ _ (lor16_lt _ (byte_lt s (baseReg pin + 1))),
      show (0x10 : Nat) = 2 ^ 4 by norm_num]
    exact testBit_or_pow_self _ 4
  · rw [fullOn_true_state, fullOff_at3, if_neg Bool.false_ne_true]
    exact testBit_and239_self _
  · rw [fullOn_false_state,
      writeByte_at_byte _ _ _
        (lt_of_le_of_lt Nat.and_le_left (byte_lt s (baseReg pin + 1)))]
    exact testBit_and239_self _
  · rw [fullOn_false_state, writeByte_ne _ _ _ _ (by omega)]

/-! ## Frequency-setting transaction sequence -/

/-- C8: `pca9685PWMFreq` issues exactly, in this order: a read of the mode
register whose value with restart bit 7 cleared is "settings"; a write of
settings with the sleep bit 4 set; a write of the computed prescale to the
prescale register 0xFE; a write of settings with the sleep bit cleared; a
1000 µs delay; and a write of the wake value with restart bit 7 set. -/
theorem pwmFreq_transaction_sequence (s : Regs) (freq : ℚ) :
    (pca9685PWMFreq s freq).2 =
      [Ev.rdByte PCA9685_MODE1 (i2cReadByteData s PCA9685_MODE1),
       Ev.wrByte PCA9685_MODE1
         (((i2cReadByteData s PCA9685_MODE1 &&& 0x7F) ||| 0x10 : Nat) : Int),
       Ev.wrByte PCA9685_PRESCALE (pwmPrescale freq),
       Ev.wrByte PCA9685_MODE1
         (((i2cReadByteData s PCA9685_MODE1 &&& 0x7F) &&& 0xEF : Nat) : Int),
       Ev.usleep 1000,
       Ev.wrByte PCA9685_MODE1
         ((((i2cReadByteData s PCA9685_MODE1 &&& 0x7F) &&& 0xEF) ||| 0x80 :
           Nat) : Int)] ∧
    (i2cReadByteData s PCA9685_MODE1 &&& 0x7F).testBit 7 = false ∧
    ((i2cReadByteData s PCA9685_MODE1 &&& 0x7F) ||| 0x10).testBit 4 = true ∧
    ((i2cReadByteData s PCA9685_MODE1 &&& 0x7F) &&& 0xEF).testBit 4 = false ∧
    (((i2cReadByteData s PCA9685_MODE1 &&& 0x7F) &&& 0xEF) ||| 0x80).testBit 7
      = true := by
  refine ⟨rfl, testBit_and127_self _, ?_, testBit_and239_self _, ?_⟩
  · rw [show (0x10 : Nat) = 2 ^ 4 by norm_num]
    exact testBit_or_pow_self _ 4
  · rw [show (0x80 : Nat) = 2 ^ 7 by norm_num]
    exact testBit_or_pow_self _ 7

/-! ## Channel write/read round trip -/

/-- C3: for every channel 0–15 and all C integers `onTicks, offTicks`,
writing the channel and reading it back returns exactly
`onTicks & 0xFFF` and `offTicks & 0xFFF`, and the override bit (bit 12)
of both read-back words is 0. -/
theorem pwm_write_read_roundtrip (s : Regs) (pin onTicks offTicks : Int)
    (h0 : 0 ≤ pin) (h1 : pin ≤ 15) :
    (((pca9685PWMRead (pca9685PWMWrite s pin onTicks offTicks).1 pin).1 : Int)
        = Int.land onTicks 0x0FFF) ∧
    (((pca9685PWMRead (pca9685PWMWrite s pin onTicks offTicks).1 pin).2.1 :
        Int) = Int.land offTicks 0x0FFF) ∧
    (pca9685PWMRead (pca9685PWMWrite s pin onTicks
        offTicks).1 pin).1.testBit 12 = false ∧
    (pca9685PWMRead (pca9685PWMWrite s pin onTicks
        offTicks).1 pin).2.1.testBit 12 = false := by
  have ha0 : 0 ≤ Int.land onTicks 0x0FFF := int_land_4095_nonneg _
  have ha1 : Int.land onTicks 0x0FFF ≤ 4095 := int_land_4095_le _
  have hb0 : 0 ≤ Int.land offTicks 0x0FFF := int_land_4095_nonneg _
  have hb1 : Int.land offTicks 0x0FFF ≤ 4095 := int_land_4095_le _
  have hrd1 : (pca9685PWMRead (pca9685PWMWrite s pin onTicks offTicks).1
        pin).1 =
      i2cReadWordData
        (i2cWriteWordData (i2cWriteWordData s (baseReg pin)
          (Int.land onTicks 0x0FFF)) (baseReg pin + 2)
          (Int.land offTicks 0x0FFF)) (baseReg pin) := rfl
  have hrd2 : (pca9685PWMRead (pca9685PWMWrite s pin onTicks offTicks).1
        pin).2.1 =
      i2cReadWordData
        (i2cWriteWordData (i2cWriteWordData s (baseReg pin)
          (Int.land onTicks 0x0FFF)) (baseReg pin + 2)
          (Int.land offTicks 0x0FFF)) (baseReg pin + 2) := rfl
  have hcong : i2cReadWordData
      (i2cWriteWordData (i2cWriteWordData s (baseReg pin)
        (Int.land onTicks 0x0FFF)) (baseReg pin + 2)
        (Int.land offTicks 0x0FFF)) (baseReg pin) =
      i2cReadWordData (i2cWriteWordData s (baseReg pin)
        (Int.land onTicks 0x0FFF)) (baseReg pin) :=
    readWord_congr _ _ _
      (writeWord_ne _ _ _ (Int.land offTicks 0x0FFF) (by omega) (by omega))
      (writeWord_ne _ _ _ (Int.land offTicks 0x0FFF) (by omega) (by omega))
  have hon : ((pca9685PWMRead (pca9685PWMWrite s pin onTicks offTicks).1
        pin).1 : Int) = Int.land onTicks 0x0FFF := by
    rw [hrd1, hcong]
    exact writeWord_readWord _ _ _ ha0 (by omega)
  have hoff : ((pca9685PWMRead (pca9685PWMWrite s pin onTicks offTicks).1
        pin).2.1 : Int) = Int.land offTicks 0x0FFF := by
    rw [hrd2]
    exact writeWord_readWord _ _ _ hb0 (by omega)
  refine ⟨hon, hoff, ?_, ?_⟩
  · apply Nat.testBit_lt_two_pow
    have h2 : (2 : Nat) ^ 12 = 4096 := by norm_num
    omega
  · apply Nat.testBit_lt_two_pow
    have h2 : (2 : Nat) ^ 12 = 4096 := by norm_num
    omega

/-- Witness for `pwm_write_read_roundtrip` at the all-zero state, channel
3, on = 5000, off = -1 (read-back 904 and 4095). -/
theorem pwm_write_read_roundtrip_witness :
    (((pca9685PWMRead (pca9685PWMWrite (fun _ => 0) 3 5000 (-1)).1 3).1 : Int)
        = Int.land 5000 0x0FFF) ∧
    (((pca9685PWMRead (pca9685PWMWrite (fun _ => 0) 3 5000 (-1)).1 3).2.1 :
        Int) = Int.land (-1) 0x0FFF) ∧
    (pca9685PWMRead (pca9685PWMWrite (fun _ => 0) 3 5000
        (-1)).1 3).1.testBit 12 = false ∧
    (pca9685PWMRead (pca9685PWMWrite (fun _ => 0) 3 5000
        (-1)).1 3).2.1.testBit 12 = false :=
  pwm_write_read_roundtrip (fun _ => 0) 3 5000 (-1) (by norm_num) (by norm_num)
